import Mathlib

/-!
Verification of the SQLite-on-paged-memory storage adapter
(`src/sqlite/connection/memory.rs` and `src/sqlite/connection/vfs.rs`).

The paged memory resource (`VectorMemory`) is embedded as a structure
`Mem` holding the backing buffer's byte length and its contents as a
function `Nat → Nat` (each value a byte, `< 256` by construction).
Machine `u64` values are embedded as `Nat`; the places where the Rust
code could overflow or abort are made explicit (`Option`, with `none`
standing for a panic/abort, and `% 2 ^ 64` where a `u64` truncation is
observable).  Fallible operations return `Option`.
-/

namespace Diesel

/-- 64 KiB, `WASM_PAGE_SIZE` / `WASM_PAGE_SIZE_IN_BYTES` in the source. -/
def wasmPageSize : Nat := 65536

/-- `MAX_PAGES = i64::MAX as u64 / WASM_PAGE_SIZE` from memory.rs. -/
def maxPages : Nat := (2 ^ 63 - 1) / wasmPageSize

/-- `SQLITE_SIZE_IN_BYTES`: the 8-byte big-endian logical-size header. -/
def sqliteSizeBytes : Nat := 8

/-- Big-endian byte encoding of a `u64` (`u64::to_be_bytes`); the value is
truncated to 64 bits exactly as the Rust `u64` holds it. -/
def toBeBytes (n : Nat) : List Nat :=
  [n / 2 ^ 56 % 256, n / 2 ^ 48 % 256, n / 2 ^ 40 % 256, n / 2 ^ 32 % 256,
   n / 2 ^ 24 % 256, n / 2 ^ 16 % 256, n / 2 ^ 8 % 256, n % 256]

/-- Big-endian decoding (`u64::from_be_bytes`). -/
def fromBeBytes (l : List Nat) : Nat :=
  l.foldl (fun acc b => acc * 256 + b) 0

/-- The backing buffer of `VectorMemory`: a byte vector, represented by its
length and a contents function (positions `≥ len` are irrelevant). -/
structure Mem where
  len : Nat
  byte : Nat → Nat

/-- `VectorMemory::size`: current size in whole wasm pages (floor). -/
def memSize (m : Mem) : Nat := m.len / wasmPageSize

/-- `Vec::resize(n, 0)`: keep the prefix, zero-fill any extension.
Bytes beyond the new length are normalised to `0` so that a later
re-extension sees zeroes, as the Rust `resize` guarantees. -/
def memResize (m : Mem) (n : Nat) : Mem :=
  { len := n, byte := fun i => if i < m.len ∧ i < n then m.byte i else 0 }

/-- `VectorMemory::grow`: returns the previous size in pages on success
(`none` models the `-1` sentinel) together with the possibly-resized
memory.  `size.checked_add(pages)` cannot overflow in `Nat`; every
argument pair a `u64` caller could supply and that would overflow also
satisfies `size + pages > maxPages`, so the sentinel branch coincides. -/
def memGrow (m : Mem) (pages : Nat) : Option Nat × Mem :=
  let size := memSize m
  let n := size + pages
  if n > maxPages then (none, m)
  else (some size, memResize m (n * wasmPageSize))

/-- `VectorMemory::read` of `count` bytes at `offset`; `none` models the
out-of-bounds panic. -/
def memRead (m : Mem) (offset count : Nat) : Option (List Nat) :=
  if offset + count ≤ m.len then
    some ((List.range count).map fun i => m.byte (offset + i))
  else none

/-- `VectorMemory::write` of `src` at `offset`; `none` models the
out-of-bounds panic. -/
def memWrite (m : Mem) (offset : Nat) (src : List Nat) : Option Mem :=
  if offset + src.length ≤ m.len then
    some { len := m.len,
           byte := fun i =>
             if offset ≤ i ∧ i < offset + src.length then src.getD (i - offset) 0
             else m.byte i }
  else none

/-- `VectorMemory::default`: `vec![0; 20]` — a 20-byte zeroed buffer. -/
def memDefault : Mem := { len := 20, byte := fun _ => 0 }

/-- One operation of the `Memory` trait, for stating reachability. -/
inductive MemOp where
  | growOp (pages : Nat)
  | readOp (offset count : Nat)
  | writeOp (offset : Nat) (src : List Nat)

/-- Effect of one `Memory` operation on the buffer.  `read` never mutates;
a `write` that would panic leaves no successor state, so the pre-state is
kept (its length is unchanged either way). -/
def applyOp (m : Mem) : MemOp → Mem
  | .growOp p => (memGrow m p).2
  | .readOp _ _ => m
  | .writeOp o src => (memWrite m o src).getD m

/-- States of `VectorMemory` reachable from `default` by a sequence of
trait operations. -/
def runOps (ops : List MemOp) : Mem :=
  ops.foldl applyOp memDefault

/-! ## The connection layer (vfs.rs) -/

/-- `Connection::stable_capacity`: `self.memory.size() << 16` bytes. -/
def stableCapacity (m : Mem) : Nat := memSize m * wasmPageSize

/-- `Connection::db_size`: `0` when the resource has no pages, otherwise
the big-endian header in bytes `[0, 8)`.  `none` models the (unreachable
when `memSize m ≠ 0`) read panic. -/
def dbSize (m : Mem) : Option Nat :=
  if memSize m = 0 then some 0
  else (memRead m 0 sqliteSizeBytes).map fromBeBytes

/-- Ceiling division; `stable_grow_bytes` computes it as
`(size as f64 / WASM_PAGE_SIZE_IN_BYTES as f64).ceil() as u64`, which is
exact for every argument below `2 ^ 53` (the division by the power of two
`65536` only shifts the exponent). -/
def ceilDiv (a b : Nat) : Nat := (a + b - 1) / b

/-- `Connection::stable_grow_bytes`: grow by `ceil(size / pageBytes)`
pages; `none` models the propagated out-of-memory error. -/
def stableGrowBytes (m : Mem) (size : Nat) : Option (Nat × Mem) :=
  let addedPages := ceilDiv size wasmPageSize
  match memGrow m addedPages with
  | (none, _) => none
  | (some g, m') => some (g, m')

/-- `Connection::set_len`: compute the capacity left for payload
(`0` for an empty resource, else `stable_capacity - 8`); grow and persist
the new size into the header only when `size` exceeds it.  `none` covers
both the propagated grow failure and a panicking header write. -/
def setLen (m : Mem) (size : Nat) : Option Mem :=
  let capacity := if memSize m = 0 then 0 else stableCapacity m - sqliteSizeBytes
  if size > capacity then
    match stableGrowBytes m (size - capacity) with
    | none => none
    | some (_, m') => memWrite m' 0 (toBeBytes size)
  else some m

/-- `Connection::write_all_at`: if `offset + buf.length` exceeds the
recorded logical size, first persist the new size into the header, then
write the payload at physical offset `offset + 8`.  The Rust method never
returns a recoverable error; `none` models a fatal out-of-bounds abort. -/
def writeAllAt (m : Mem) (offset : Nat) (buf : List Nat) : Option Mem :=
  let size := offset + buf.length
  match dbSize m with
  | none => none
  | some ds =>
    match (if size > ds then memWrite m 0 (toBeBytes size) else some m) with
    | none => none
    | some m1 => memWrite m1 (offset + sqliteSizeBytes) buf

/-! ## The lock state machine (vfs.rs) -/

/-- `sqlite_vfs::LockKind`.  Modelled from the spec: the lock-level type
lives in the external `sqlite_vfs` crate; the spec fixes it as a totally
ordered five-level enum `None < Shared < Reserved < Pending < Exclusive`. -/
inductive LockKind where
  | lkNone
  | shared
  | reserved
  | pending
  | exclusive
  deriving DecidableEq

/-- Position of a level in the total order used by the Rust comparisons. -/
def LockKind.rank : LockKind → Nat
  | .lkNone => 0
  | .shared => 1
  | .reserved => 2
  | .pending => 3
  | .exclusive => 4

/-- The shared `LockState`: `read` counts handles at exactly Shared,
`write` is the writer intent (`some false` = reserved,
`some true` = exclusive, `none` = no intent). -/
structure LockState where
  read : Nat
  write : Option Bool
  deriving DecidableEq

/-- `Connection::lock`, acting on the connection's own level `self` and
the shared state: returns (granted, new own level, new shared state).
The two `read - 1` decrements are `Nat` truncated subtraction; the Rust
`usize` decrement underflows (panics) only in states where a handle at
Shared is not counted in `read`, which the protocol never produces. -/
def lockTransition (self : LockKind) (st : LockState) (tgt : LockKind) :
    Bool × LockKind × LockState :=
  if self = tgt then (true, self, st)
  else
    match tgt with
    | .lkNone =>
        let st' :=
          if self = .shared then { st with read := st.read - 1 }
          else if LockKind.shared.rank < self.rank then { st with write := none }
          else st
        (true, .lkNone, st')
    | .shared =>
        if st.write = some true ∧ self.rank ≤ LockKind.shared.rank then
          (false, self, st)
        else
          let st' := { st with read := st.read + 1 }
          let st'' :=
            if LockKind.shared.rank < self.rank then { st' with write := none }
            else st'
          (true, .shared, st'')
    | .reserved =>
        if st.write.isSome ∨ self ≠ .shared then (false, self, st)
        else
          let st' :=
            if self = .shared then { st with read := st.read - 1 } else st
          (true, .reserved, { st' with write := some false })
    | .pending =>
        (false, self, st)
    | .exclusive =>
        if st.write.isSome ∧ self.rank ≤ LockKind.shared.rank then
          (false, self, st)
        else
          let st' :=
            if self = .shared then { st with read := st.read - 1 } else st
          let st'' := { st' with write := some true }
          if st''.read = 0 then (true, .exclusive, st'')
          else (false, .pending, st'')

/-! ## The VFS adapter (vfs.rs) -/

/-- `sqlite_vfs::OpenKind`.  Modelled from the spec: the file-kind type
lives in the external `sqlite_vfs` crate; the spec names the main
database kind and the unsupported journal, WAL and temporary kinds. -/
inductive OpenKind where
  | mainDb
  | journal
  | wal
  | tempDb
  deriving DecidableEq

/-- The classified errors `PagesVfs::open` can return. -/
inductive VfsError where
  | notFound
  | permissionDenied
  deriving DecidableEq

/-- `PagesVfs`: the shared lock state and the shared memory resource. -/
structure PagesVfs where
  lockState : LockState
  mem : Mem

/-- `Connection`: its own lock level plus the shared state it references.
Sharing-by-`Arc` is rendered as field equality with the parent `PagesVfs`
at creation time. -/
structure Connection where
  lockState : LockState
  lock : LockKind
  mem : Mem

/-- `PagesVfs::open`: only the name `"main.db"` (else not-found) and the
main-database kind (else permission-denied) are accepted; on success the
connection shares the VFS state and starts at lock level `None`. -/
def vfsOpen (v : PagesVfs) (db : String) (kind : OpenKind) :
    Except VfsError Connection :=
  if db ≠ "main.db" then .error .notFound
  else if kind ≠ OpenKind.mainDb then .error .permissionDenied
  else .ok { lockState := v.lockState, lock := .lkNone, mem := v.mem }

/-- `PagesVfs::exists`: `db == "main.db" && self.memory.size() > 0`. -/
def vfsExists (v : PagesVfs) (db : String) : Bool :=
  db == "main.db" && decide (0 < memSize v.mem)

/-- A one-page, zero-filled resource, used to instantiate the theorems. -/
def memOnePage : Mem := { len := wasmPageSize, byte := fun _ => 0 }

/-! ## Helper lemmas -/

theorem fromBe_toBe (n : Nat) : fromBeBytes (toBeBytes n) = n % 2 ^ 64 := by
  simp only [fromBeBytes, toBeBytes, List.foldl_cons, List.foldl_nil]
  omega

theorem memWrite_some_of_le {m : Mem} {o : Nat} {src : List Nat}
    (h : o + src.length ≤ m.len) :
    memWrite m o src =
      some { len := m.len,
             byte := fun i =>
               if o ≤ i ∧ i < o + src.length then src.getD (i - o) 0
               else m.byte i } := by
  simp [memWrite, h]

theorem memWrite_none_of_lt {m : Mem} {o : Nat} {src : List Nat}
    (h : m.len < o + src.length) : memWrite m o src = none := by
  simp [memWrite]
  omega

theorem memWrite_len {m m' : Mem} {o : Nat} {src : List Nat}
    (h : memWrite m o src = some m') : m'.len = m.len := by
  simp only [memWrite] at h
  split at h
  · simp only [Option.some.injEq] at h
    subst h
    rfl
  · exact absurd h (by simp)

theorem memSize_pos_le_len {m : Mem} (h : memSize m ≠ 0) :
    wasmPageSize ≤ m.len := by
  simp only [memSize, wasmPageSize] at *
  omega

theorem dbSize_isSome (m : Mem) : (dbSize m).isSome := by
  by_cases h : memSize m = 0
  · simp [dbSize, h]
  · have hle := memSize_pos_le_len h
    have h8 : sqliteSizeBytes ≤ m.len := by
      simp only [wasmPageSize] at hle
      simp only [sqliteSizeBytes]
      omega
    simp [dbSize, h, memRead, h8]

/-- If the first 8 bytes hold the big-endian encoding of `s` and the
resource is nonempty, `db_size` reads back `s` (as a `u64`). -/
theorem dbSize_header {m : Mem} {s : Nat} (hsz : memSize m ≠ 0)
    (hb : ∀ i, i < 8 → m.byte i = (toBeBytes s).getD i 0) :
    dbSize m = some (s % 2 ^ 64) := by
  have hle := memSize_pos_le_len hsz
  have h8 : sqliteSizeBytes ≤ m.len := by
    simp only [wasmPageSize] at hle
    simp only [sqliteSizeBytes]
    omega
  have hmap : (List.range sqliteSizeBytes).map (fun i => m.byte i) =
      toBeBytes s := by
    have e : List.range sqliteSizeBytes = [0, 1, 2, 3, 4, 5, 6, 7] := rfl
    rw [e]
    simp only [List.map_cons, List.map_nil]
    rw [hb 0 (by omega), hb 1 (by omega), hb 2 (by omega), hb 3 (by omega),
        hb 4 (by omega), hb 5 (by omega), hb 6 (by omega), hb 7 (by omega)]
    rfl
  simp [dbSize, hsz, memRead, h8, hmap, fromBe_toBe]

theorem toBeBytes_length (n : Nat) : (toBeBytes n).length = 8 := rfl

theorem memWrite_bound {m m' : Mem} {o : Nat} {src : List Nat}
    (h : memWrite m o src = some m') : o + src.length ≤ m.len := by
  simp only [memWrite] at h
  split at h
  · assumption
  · exact absurd h (by simp)

theorem memWrite_byte_out {m m' : Mem} {o : Nat} {src : List Nat}
    (h : memWrite m o src = some m') {i : Nat}
    (hi : ¬ (o ≤ i ∧ i < o + src.length)) : m'.byte i = m.byte i := by
  simp only [memWrite] at h
  split at h
  · simp only [Option.some.injEq] at h
    subst h
    exact if_neg hi
  · exact absurd h (by simp)

theorem memWrite_byte_in {m m' : Mem} {o : Nat} {src : List Nat}
    (h : memWrite m o src = some m') {i : Nat}
    (hi : o ≤ i ∧ i < o + src.length) : m'.byte i = src.getD (i - o) 0 := by
  simp only [memWrite] at h
  split at h
  · simp only [Option.some.injEq] at h
    subst h
    exact if_pos hi
  · exact absurd h (by simp)

theorem stableCapacity_le_len (m : Mem) : stableCapacity m ≤ m.len :=
  Nat.div_mul_le_self m.len wasmPageSize

theorem memGrow_eq (m : Mem) (pages : Nat) :
    memGrow m pages =
      if memSize m + pages > maxPages then (none, m)
      else (some (memSize m), memResize m ((memSize m + pages) * wasmPageSize)) :=
  rfl

theorem stableGrowBytes_eq (m : Mem) (s0 : Nat) :
    stableGrowBytes m s0 =
      if memSize m + ceilDiv s0 wasmPageSize > maxPages then none
      else some (memSize m,
        memResize m ((memSize m + ceilDiv s0 wasmPageSize) * wasmPageSize)) := by
  by_cases hmax : memSize m + ceilDiv s0 wasmPageSize > maxPages
  · rw [if_pos hmax]
    show (match memGrow m (ceilDiv s0 wasmPageSize) with
          | (none, _) => none
          | (some g, m') => some (g, m')) = none
    rw [memGrow_eq, if_pos hmax]
  · rw [if_neg hmax]
    show (match memGrow m (ceilDiv s0 wasmPageSize) with
          | (none, _) => none
          | (some g, m') => some (g, m')) = _
    rw [memGrow_eq, if_neg hmax]

theorem stableGrowBytes_len {m m2 : Mem} {s0 g : Nat}
    (h : stableGrowBytes m s0 = some (g, m2)) :
    m2.len = (memSize m + ceilDiv s0 wasmPageSize) * wasmPageSize := by
  rw [stableGrowBytes_eq] at h
  split at h
  · exact absurd h (by simp)
  · simp only [Option.some.injEq, Prod.mk.injEq] at h
    rw [← h.2]
    rfl

/-- Evaluation shape of `write_all_at` once the recorded size is known. -/
theorem writeAllAt_eq (m : Mem) (offset : Nat) (buf : List Nat) (ds : Nat)
    (hds : dbSize m = some ds) :
    writeAllAt m offset buf =
      Option.bind
        (if offset + buf.length > ds then
            memWrite m 0 (toBeBytes (offset + buf.length))
         else some m)
        (fun m1 => memWrite m1 (offset + sqliteSizeBytes) buf) := by
  simp only [writeAllAt, hds]
  cases h : (if offset + buf.length > ds then
      memWrite m 0 (toBeBytes (offset + buf.length))
    else some m) with
  | none => simp [h]
  | some m1 => simp [h]

/-! ## Claim theorems -/

/-- C2, counterexample: with another connection's reserved intent in the
shared state (`write = some false`), a connection at Shared requesting
Exclusive is rejected by the writer-intent guard and the state is left
unchanged — the exclusive intent is not claimed, contrary to the claim
that only an exclusive intent of another connection causes rejection. -/
theorem exclusive_rejected_under_reserved_intent :
    lockTransition LockKind.shared ⟨1, some false⟩ LockKind.exclusive =
      (false, LockKind.shared, ⟨1, some false⟩) := by
  decide

/-- C2, amended: for a connection whose level is at most Shared, a
request for Exclusive is rejected by the writer-intent guard exactly when
any writer intent (reserved or exclusive) is present; when no intent is
present the request proceeds and claims exclusive intent
(`write = some true`) regardless of its outcome. -/
theorem exclusive_guard_spec (st : LockState) (self : LockKind)
    (hself : self.rank ≤ LockKind.shared.rank) :
    (st.write.isSome →
        lockTransition self st LockKind.exclusive = (false, self, st)) ∧
    (st.write = none →
        (lockTransition self st LockKind.exclusive).2.2.write = some true) := by
  rcases st with ⟨r, w⟩
  cases self <;> simp only [LockKind.rank] at hself
  case reserved => omega
  case pending => omega
  case exclusive => omega
  all_goals
    cases w <;>
      constructor <;>
        intro hw <;>
          simp_all [lockTransition, LockKind.rank] <;>
            split <;> rfl

/-- C2, witness for `exclusive_guard_spec`: a Shared connection with no
writer intent present claims exclusive intent on its attempt. -/
theorem exclusive_guard_spec_witness :
    (lockTransition LockKind.shared ⟨2, none⟩ LockKind.exclusive).2.2.write =
      some true :=
  (exclusive_guard_spec ⟨2, none⟩ LockKind.shared (by decide)).2 rfl

/-- C3: the pending-handoff scenario.  From a fresh lock state, A and B
each take Shared (readers reach 2); A's escalation to Exclusive releases
its reader slot, claims exclusive intent, fails, and leaves A at Pending;
after B releases to None (readers 0), A's retried escalation succeeds
and yields Exclusive. -/
theorem pending_handoff_scenario :
    lockTransition LockKind.lkNone ⟨0, none⟩ LockKind.shared =
      (true, LockKind.shared, ⟨1, none⟩) ∧
    lockTransition LockKind.lkNone ⟨1, none⟩ LockKind.shared =
      (true, LockKind.shared, ⟨2, none⟩) ∧
    lockTransition LockKind.shared ⟨2, none⟩ LockKind.exclusive =
      (false, LockKind.pending, ⟨1, some true⟩) ∧
    lockTransition LockKind.shared ⟨1, some true⟩ LockKind.lkNone =
      (true, LockKind.lkNone, ⟨0, some true⟩) ∧
    lockTransition LockKind.pending ⟨0, some true⟩ LockKind.exclusive =
      (true, LockKind.exclusive, ⟨0, some true⟩) := by
  decide

/-- C6: `grow(n)` returns the `-1` sentinel and leaves the memory (hence
`size()`) unchanged when `currentPages + n` exceeds `MAX_PAGES`; otherwise
it returns the previous size in pages and `size()` increases by exactly
`n`. -/
theorem grow_spec (m : Mem) (pages : Nat) :
    (maxPages < memSize m + pages → memGrow m pages = (none, m)) ∧
    (memSize m + pages ≤ maxPages →
        (memGrow m pages).1 = some (memSize m) ∧
        memSize (memGrow m pages).2 = memSize m + pages) := by
  constructor
  · intro h
    simp [memGrow, h]
  · intro h
    have hnot : ¬ memSize m + pages > maxPages := by omega
    constructor
    · simp [memGrow, hnot]
    · simp only [memGrow, hnot, if_false]
      simp only [memSize, memResize, wasmPageSize]
      omega

/-- C6, witness for `grow_spec`: growing the default memory by one page
succeeds, returns previous size `0`, and the size becomes `1`. -/
theorem grow_spec_witness :
    (memGrow memDefault 1).1 = some (memSize memDefault) ∧
    memSize (memGrow memDefault 1).2 = memSize memDefault + 1 :=
  (grow_spec memDefault 1).2 (by decide)

/-- C7: `open` returns not-found for any name other than `"main.db"`,
permission-denied for any kind other than the main database, and
otherwise a connection sharing the VFS's lock state and memory, with
initial lock level None. -/
theorem open_spec (v : PagesVfs) (db : String) (kind : OpenKind) :
    (db ≠ "main.db" → vfsOpen v db kind = .error .notFound) ∧
    (db = "main.db" → kind ≠ OpenKind.mainDb →
        vfsOpen v db kind = .error .permissionDenied) ∧
    (db = "main.db" → kind = OpenKind.mainDb →
        vfsOpen v db kind =
          .ok { lockState := v.lockState, lock := .lkNone, mem := v.mem }) := by
  refine ⟨fun h => by simp [vfsOpen, h], fun h hk => ?_, fun h hk => ?_⟩
  · subst h
    simp [vfsOpen, hk]
  · subst h
    subst hk
    simp [vfsOpen]

/-- C7, witness for `open_spec`: the three outcomes at concrete inputs. -/
theorem open_spec_witness :
    vfsOpen ⟨⟨0, none⟩, memDefault⟩ "other.db" OpenKind.mainDb =
      .error .notFound ∧
    vfsOpen ⟨⟨0, none⟩, memDefault⟩ "main.db" OpenKind.journal =
      .error .permissionDenied ∧
    vfsOpen ⟨⟨0, none⟩, memDefault⟩ "main.db" OpenKind.mainDb =
      .ok { lockState := ⟨0, none⟩, lock := .lkNone, mem := memDefault } :=
  ⟨(open_spec ⟨⟨0, none⟩, memDefault⟩ "other.db" OpenKind.mainDb).1
      (by decide),
   (open_spec ⟨⟨0, none⟩, memDefault⟩ "main.db" OpenKind.journal).2.1
      rfl (by decide),
   (open_spec ⟨⟨0, none⟩, memDefault⟩ "main.db" OpenKind.mainDb).2.2
      rfl rfl⟩

/-- C8, counterexample: the freshly created `VectorMemory` buffer holds
20 bytes, which is not a multiple of the 65536-byte page size. -/
theorem initial_capacity_not_page_multiple :
    ¬ (runOps []).len % wasmPageSize = 0 := by
  decide

/-- C8, amended: in every reachable state of the in-process memory, the
byte capacity of the backing buffer is either the initial 20 bytes or an
exact multiple of the 65536-byte page size (every successful `grow`
resizes to a whole number of pages, and `read`/`write` never change the
capacity). -/
theorem reachable_capacity_near_page_multiple (ops : List MemOp) :
    (runOps ops).len = 20 ∨ (runOps ops).len % wasmPageSize = 0 := by
  have step : ∀ (m : Mem) (op : MemOp),
      (m.len = 20 ∨ m.len % wasmPageSize = 0) →
      ((applyOp m op).len = 20 ∨ (applyOp m op).len % wasmPageSize = 0) := by
    intro m op h
    cases op with
    | growOp p =>
        simp only [applyOp, memGrow]
        split
        · exact h
        · right
          simp [memResize, Nat.mul_mod_left]
    | readOp o c => exact h
    | writeOp o src =>
        simp only [applyOp]
        cases hw : memWrite m o src with
        | none => simpa [hw] using h
        | some m' =>
            have hl := memWrite_len hw
            simp only [hw, Option.getD_some]
            rw [hl]
            exact h
  have main : ∀ (l : List MemOp) (m : Mem),
      (m.len = 20 ∨ m.len % wasmPageSize = 0) →
      ((l.foldl applyOp m).len = 20 ∨ (l.foldl applyOp m).len % wasmPageSize = 0) := by
    intro l
    induction l with
    | nil => intro m h; exact h
    | cons op rest ih =>
        intro m h
        exact ih (applyOp m op) (step m op h)
  exact main ops memDefault (Or.inl rfl)

/-- C5: `exists(name)` is true iff `name` is `"main.db"` and the resource
has a nonzero size in pages; it is false on a zero-size resource; and it
is true immediately after any `write_all_at` after which the recorded
logical size is positive (a positive recorded size forces a nonzero page
count, since `db_size` reports `0` on an empty resource). -/
theorem exists_spec :
    (∀ (v : PagesVfs) (db : String),
        vfsExists v db = true ↔ (db = "main.db" ∧ memSize v.mem ≠ 0)) ∧
    (∀ v : PagesVfs, memSize v.mem = 0 → vfsExists v "main.db" = false) ∧
    (∀ (st : LockState) (m : Mem) (offset : Nat) (buf : List Nat)
        (m' : Mem) (s : Nat),
        writeAllAt m offset buf = some m' → dbSize m' = some s → 0 < s →
        vfsExists ⟨st, m'⟩ "main.db" = true) := by
  refine ⟨fun v db => ?_, fun v h => ?_,
    fun st m offset buf m' s hw hd hs => ?_⟩
  · simp [vfsExists, Nat.pos_iff_ne_zero]
  · simp [vfsExists, h]
  · have hne : memSize m' ≠ 0 := by
      intro h0
      simp only [dbSize, if_pos h0, Option.some.injEq] at hd
      omega
    simp [vfsExists, Nat.pos_of_ne_zero hne]

/-- C5, witness for `exists_spec`: after writing one byte into a one-page
resource (recorded size becomes 1), `exists("main.db")` is true. -/
theorem exists_spec_witness :
    vfsExists ⟨⟨0, none⟩, (writeAllAt memOnePage 0 [7]).getD memDefault⟩
      "main.db" = true :=
  exists_spec.2.2 ⟨0, none⟩ memOnePage 0 [7]
    ((writeAllAt memOnePage 0 [7]).getD memDefault) 1
    (by rfl) (by decide) (by decide)

/-- C10, counterexample: on the freshly created resource the page count
is 0, so the physical capacity `resourceSize * 65536` is 0 bytes, yet
`write_all_at(0, [7])` — whose target range `[8, 9)` exceeds that
capacity — succeeds instead of aborting, because the backing buffer
actually holds 20 bytes. -/
theorem writeAllAt_beyond_capacity_no_abort :
    stableCapacity memDefault = 0 ∧
    (writeAllAt memDefault 0 [7]).isSome = true := by
  decide

/-- C10, amended: `write_all_at` never grows the resource; when the
payload range `[offset+8, offset+8+len)` lies within
`resourceSize * 65536` bytes no abort is reachable (the header range
`[0, 8)` is then automatically in bounds, and `resourceSize * 65536`
never exceeds the buffer length); and a call whose target range exceeds
the backing buffer's byte length — which equals `resourceSize * 65536`
in every state except the initial 20-byte one — aborts fatally
(`write_all_at` has no recoverable error outcome at all). -/
theorem writeAllAt_safety :
    (∀ (m : Mem) (offset : Nat) (buf : List Nat) (m' : Mem),
        writeAllAt m offset buf = some m' → m'.len = m.len) ∧
    (∀ (m : Mem) (offset : Nat) (buf : List Nat),
        offset + sqliteSizeBytes + buf.length ≤ stableCapacity m →
        (writeAllAt m offset buf).isSome = true) ∧
    (∀ (m : Mem) (offset : Nat) (buf : List Nat),
        m.len < offset + sqliteSizeBytes + buf.length →
        writeAllAt m offset buf = none) := by
  refine ⟨fun m offset buf m' hw => ?_, fun m offset buf hle => ?_,
    fun m offset buf hgt => ?_⟩
  · obtain ⟨ds, hds⟩ := Option.isSome_iff_exists.mp (dbSize_isSome m)
    rw [writeAllAt_eq m offset buf ds hds] at hw
    by_cases hc : offset + buf.length > ds
    · rw [if_pos hc] at hw
      cases h1 : memWrite m 0 (toBeBytes (offset + buf.length)) with
      | none => rw [h1] at hw; exact absurd hw (by simp)
      | some m1 =>
          rw [h1] at hw
          simp only [Option.some_bind] at hw
          rw [memWrite_len hw, memWrite_len h1]
    · rw [if_neg hc] at hw
      simp only [Option.some_bind] at hw
      exact memWrite_len hw
  · obtain ⟨ds, hds⟩ := Option.isSome_iff_exists.mp (dbSize_isSome m)
    have hcap := stableCapacity_le_len m
    have hbuf : offset + sqliteSizeBytes + buf.length ≤ m.len := le_trans hle hcap
    rw [writeAllAt_eq m offset buf ds hds]
    by_cases hc : offset + buf.length > ds
    · rw [if_pos hc]
      have hw1 := @memWrite_some_of_le m 0 (toBeBytes (offset + buf.length))
        (by rw [toBeBytes_length]; simp only [sqliteSizeBytes] at hbuf; omega)
      rw [hw1]
      simp only [Option.some_bind]
      rw [memWrite_some_of_le (by simpa using hbuf)]
      rfl
    · rw [if_neg hc]
      simp only [Option.some_bind]
      rw [memWrite_some_of_le (by simpa using hbuf)]
      rfl
  · obtain ⟨ds, hds⟩ := Option.isSome_iff_exists.mp (dbSize_isSome m)
    rw [writeAllAt_eq m offset buf ds hds]
    by_cases hc : offset + buf.length > ds
    · rw [if_pos hc]
      cases h1 : memWrite m 0 (toBeBytes (offset + buf.length)) with
      | none => rfl
      | some m1 =>
          simp only [Option.some_bind]
          exact memWrite_none_of_lt (by rw [memWrite_len h1]; omega)
    · rw [if_neg hc]
      simp only [Option.some_bind]
      exact memWrite_none_of_lt (by omega)

/-- C10, witness for `writeAllAt_safety`: an in-bounds write on a
one-page resource succeeds; a write reaching past the buffer end aborts. -/
theorem writeAllAt_safety_witness :
    (writeAllAt memOnePage 0 [7]).isSome = true ∧
    writeAllAt memOnePage 65530 [7, 7, 7] = none :=
  ⟨writeAllAt_safety.2.1 memOnePage 0 [7] (by decide),
   writeAllAt_safety.2.2 memOnePage 65530 [7, 7, 7] (by decide)⟩

/-- C4, counterexample: on the freshly created resource (0 pages, 20-byte
buffer), `write_all_at(0, [7])` succeeds and writes the header, but a
subsequent `size()` returns 0, not `offset + len(bytes) = 1`, because
`db_size` reports 0 whenever the page count is 0. -/
theorem writeAllAt_empty_size_stays_zero :
    (writeAllAt memDefault 0 [7]).isSome = true ∧
    (writeAllAt memDefault 0 [7]).bind dbSize = some 0 := by
  decide

/-- C4, amended: whenever `write_all_at(offset, bytes)` succeeds with
`offset + len(bytes)` above the recorded size and the resource holds at
least one page, the new size is written into the 8-byte big-endian
header as a distinct physical write performed before the payload write
at physical offset `offset + 8`, and a subsequent `size()` returns
exactly `offset + len(bytes)`. -/
theorem writeAllAt_header_before_payload (m : Mem) (offset : Nat)
    (buf : List Nat) (ds : Nat) (m' : Mem)
    (hds : dbSize m = some ds) (hgrow : offset + buf.length > ds)
    (hres : writeAllAt m offset buf = some m')
    (hpages : memSize m ≠ 0) (hbound : offset + buf.length < 2 ^ 64) :
    ∃ m1, memWrite m 0 (toBeBytes (offset + buf.length)) = some m1 ∧
      memWrite m1 (offset + sqliteSizeBytes) buf = some m' ∧
      dbSize m' = some (offset + buf.length) := by
  rw [writeAllAt_eq m offset buf ds hds, if_pos hgrow] at hres
  cases h1 : memWrite m 0 (toBeBytes (offset + buf.length)) with
  | none => rw [h1] at hres; exact absurd hres (by simp)
  | some m1 =>
      rw [h1] at hres
      simp only [Option.some_bind] at hres
      refine ⟨m1, rfl, hres, ?_⟩
      have hlen : m'.len = m.len := by rw [memWrite_len hres, memWrite_len h1]
      have hsz : memSize m' ≠ 0 := by
        unfold memSize at hpages ⊢
        rw [hlen]
        exact hpages
      have hb : ∀ i, i < 8 →
          m'.byte i = (toBeBytes (offset + buf.length)).getD i 0 := by
        intro i hi
        have e1 : m'.byte i = m1.byte i := by
          apply memWrite_byte_out hres
          simp only [sqliteSizeBytes]
          omega
        have e2 : m1.byte i = (toBeBytes (offset + buf.length)).getD (i - 0) 0 := by
          apply memWrite_byte_in h1
          rw [toBeBytes_length]
          omega
        rw [e1, e2]
        simp
      rw [dbSize_header hsz hb, Nat.mod_eq_of_lt hbound]

/-- C4, witness for `writeAllAt_header_before_payload`: writing one byte
at offset 0 of a one-page resource makes `size()` report 1. -/
theorem writeAllAt_header_before_payload_witness :
    dbSize ((writeAllAt memOnePage 0 [7]).getD memDefault) = some 1 := by
  obtain ⟨m1, h1, h2, h3⟩ :=
    writeAllAt_header_before_payload memOnePage 0 [7] 0
      ((writeAllAt memOnePage 0 [7]).getD memDefault)
      (by decide) (by decide) (by rfl) (by decide) (by decide)
  simpa using h3

/-- Evaluation shape of `set_len`. -/
theorem setLen_eq (m : Mem) (size : Nat) :
    setLen m size =
      if size > (if memSize m = 0 then 0
                 else stableCapacity m - sqliteSizeBytes) then
        match stableGrowBytes m
            (size - (if memSize m = 0 then 0
                     else stableCapacity m - sqliteSizeBytes)) with
        | none => none
        | some (_, m2) => memWrite m2 0 (toBeBytes size)
      else some m :=
  rfl

/-- C9, counterexample: `set_len` can decrease the recorded logical
size.  From the fresh resource, `set_len(65536)` persists header 65536
(one page, capacity for payload 65528); a following `set_len(65530)`
finds 65530 above the capacity, grows, and persists header 65530 — a
decrease from 65536. -/
theorem setLen_can_decrease_header :
    (setLen memDefault 65536).bind dbSize = some 65536 ∧
    (setLen ((setLen memDefault 65536).getD memDefault) 65530).bind dbSize =
      some 65530 := by
  decide

/-- C9, amended: a `set_len(newSize)` with `newSize` at most the current
physical capacity (`resourceSize * 65536 − 8`, or 0 when the resource is
empty) modifies neither the header nor the resource (the memory is
returned unchanged); consequently, whenever the currently recorded
header value is itself at most that capacity, `set_len` never decreases
it. -/
theorem setLen_frame_and_monotone :
    (∀ (m : Mem) (size : Nat),
        size ≤ (if memSize m = 0 then 0
                else stableCapacity m - sqliteSizeBytes) →
        setLen m size = some m) ∧
    (∀ (m m' : Mem) (size h h' : Nat),
        dbSize m = some h →
        h ≤ (if memSize m = 0 then 0
             else stableCapacity m - sqliteSizeBytes) →
        size < 2 ^ 64 →
        setLen m size = some m' →
        dbSize m' = some h' →
        h ≤ h') := by
  constructor
  · intro m size hle
    rw [setLen_eq, if_neg (by omega)]
  · intro m m' size h h' hds hcap hbound hsl hd'
    by_cases hc : size > (if memSize m = 0 then 0
        else stableCapacity m - sqliteSizeBytes)
    · rw [setLen_eq, if_pos hc] at hsl
      cases hg : stableGrowBytes m
          (size - (if memSize m = 0 then 0
                   else stableCapacity m - sqliteSizeBytes)) with
      | none => rw [hg] at hsl; exact absurd hsl (by simp)
      | some gm2 =>
          obtain ⟨g, m2⟩ := gm2
          rw [hg] at hsl
          have hk : 1 ≤ ceilDiv
              (size - (if memSize m = 0 then 0
                       else stableCapacity m - sqliteSizeBytes))
              wasmPageSize := by
            simp only [ceilDiv, wasmPageSize]
            omega
          have hlen2 := stableGrowBytes_len hg
          have hlen : m'.len = m2.len := memWrite_len hsl
          have hsz : memSize m' ≠ 0 := by
            unfold memSize
            rw [hlen, hlen2]
            simp only [wasmPageSize] at *
            omega
          have hb : ∀ i, i < 8 → m'.byte i = (toBeBytes size).getD i 0 := by
            intro i hi
            have e2 : m'.byte i = (toBeBytes size).getD (i - 0) 0 := by
              apply memWrite_byte_in hsl
              rw [toBeBytes_length]
              omega
            rw [e2]
            simp
          rw [dbSize_header hsz hb, Nat.mod_eq_of_lt hbound,
            Option.some.injEq] at hd'
          omega
    · rw [setLen_eq, if_neg hc] at hsl
      rw [Option.some.injEq] at hsl
      rw [← hsl] at hd'
      rw [hds, Option.some.injEq] at hd'
      omega

/-- C9, witness for `setLen_frame_and_monotone`: on a one-page resource
(payload capacity 65528 bytes, recorded size 0), `set_len(100)` leaves
the memory untouched, and a growing `set_len(70000)` raises the header
from 0 to 70000 — not a decrease. -/
theorem setLen_frame_and_monotone_witness :
    setLen memOnePage 100 = some memOnePage ∧ (0 : Nat) ≤ 70000 :=
  ⟨setLen_frame_and_monotone.1 memOnePage 100 (by decide),
   setLen_frame_and_monotone.2 memOnePage
     ((setLen memOnePage 70000).getD memDefault) 70000 0 70000
     (by decide) (by decide) (by decide) (by rfl) (by decide)⟩

/-- C1: the header-capacity invariant fails at a concrete input the code
itself reaches.  On the empty resource, `set_len(65536)` succeeds: it
grows by `ceil(65536 / 65536) = 1` page and persists header 65536, but
the physical capacity is then 65536 bytes, so the header value exceeds
capacity − 8 = 65528, violating the specified invariant
`header ≤ physical capacity − 8`. -/
theorem setLen_empty_page_multiple_header_overflow :
    (setLen memDefault 65536).bind dbSize = some 65536 ∧
    (setLen memDefault 65536).map stableCapacity = some 65536 ∧
    (setLen memDefault 65536).map
        (fun m => stableCapacity m - sqliteSizeBytes) = some 65528 := by
  decide

end Diesel
